import Mathlib

/-!
# VCEventLogger: a verification development of `EventLogger.go`

The program tails the event stream of a vCenter endpoint.  `main` prints a
banner, opens a session, creates an event collector and then polls it for
ever; every event of a fetched batch is flattened into a map, marshalled to
JSON and printed behind a local RFC 3339 time stamp.

The embedding is shallow.  The pure parts of the source are Lean functions
(`GetEnvString`, `GetEnvBool`, `normalize`).  The effectful parts are state
passing over a process state `Proc` (standard output, error stream, the
operations issued so far, and whether the process still runs).  What the
remote endpoint answers is an input of the model: the outcome of every startup
step, of every fetch and of every category lookup is given to `main` as data.

Go strings are modelled as Lean strings, that is as sequences of Unicode
scalar values (valid UTF-8).  The library routines the source calls
(`strings.TrimSpace`, `json.Marshal` on a map of strings and integers,
`fmt` verbs, `time.Time.Unix`, `Format` and `Parse` with the RFC 3339 layout)
are modelled by their documented behaviour on that domain.
-/

namespace EventLogger

/-! ## Environment defaults -/

/-- Process environment: a variable is unset (`none`) or bound to a string. -/
abbrev Env := String → Option String

/-- Go `os.Getenv`: the value of the variable, the empty string when unset. -/
def Getenv (env : Env) (key : String) : String :=
  (env key).getD ""

/-- Source lines 28-34. -/
def GetEnvString (env : Env) (key : String) (defaultValue : String) : String :=
  let r := Getenv env key
  if r = "" then defaultValue else r

/-- Source lines 36-42. -/
def GetEnvBool (env : Env) (key : String) (defaultValue : Bool) : Bool :=
  let r := Getenv env key
  if r = "" then defaultValue else decide (r = "1")

/-- Name of the environment variable behind the flag `-url` (line 24). -/
def envURL : String := "VCEL_URL"

/-- Name of the environment variable behind the flag `-insecure` (line 25). -/
def envInsecure : String := "VCEL_INSECURE"

/-! ## Formatting verbs of `fmt` -/

/-- Go `fmt` applied to a `bool` operand under the verb `%s`.  The verb `%s`
is not defined for booleans, so `fmt` prints its bad-verb form
`%!s(bool=true)` or `%!s(bool=false)`. -/
def fmtBoolS (b : Bool) : String :=
  "%!s(bool=" ++ (if b then "true" else "false") ++ ")"

/-- The text written by line 54,
`fmt.Printf("url=%s insecure=%s\n", *vcUrl, *insecure)`. -/
def banner (vcUrl : String) (insecure : Bool) : String :=
  "url=" ++ vcUrl ++ " insecure=" ++ fmtBoolS insecure ++ "\n"

/-! ## Time -/

/-- Go `*time.Location`, reduced to what `Format` needs: the offset east of
UTC, in seconds, that is in effect at a given instant (Unix seconds). -/
structure Location where
  lookup : Int → Int

/-- The location `time.UTC`. -/
def UTC : Location := ⟨fun _ => 0⟩

/-- A zone with one fixed offset (`time.FixedZone`). -/
def FixedZone (offset : Int) : Location := ⟨fun _ => offset⟩

/-- Go `time.Time`: an instant (seconds since the Unix epoch and nanoseconds
within that second) together with the location used to display it. -/
structure Time where
  sec : Int
  nsec : Nat
  loc : Location

/-- Go `Time.Unix`: seconds since the Unix epoch; the location plays no role. -/
def Time.Unix (t : Time) : Int := t.sec

/-- Go `Time.Local`: the same instant, displayed in the local location. -/
def Time.Local (localZone : Location) (t : Time) : Time :=
  { t with loc := localZone }

/-- A civil date of the proleptic Gregorian calendar. -/
structure Civil where
  year : Int
  month : Int
  day : Int
deriving DecidableEq, Repr

/-- Go `isLeap`. -/
def isLeap (year : Int) : Bool :=
  year % 4 = 0 ∧ (year % 100 ≠ 0 ∨ year % 400 = 0)

/-- Go table `daysBefore`: `daysBefore m` is the number of days of a non-leap
year that precede the first day of month `m + 1`. -/
def daysBefore (m : Int) : Int :=
  if m = 0 then 0 else if m = 1 then 31 else if m = 2 then 59
  else if m = 3 then 90 else if m = 4 then 120 else if m = 5 then 151
  else if m = 6 then 181 else if m = 7 then 212 else if m = 8 then 243
  else if m = 9 then 273 else if m = 10 then 304 else if m = 11 then 334
  else 365

/-- Go `daysIn`: number of days of a month of a year. -/
def daysIn (month : Int) (year : Int) : Int :=
  if month = 2 ∧ isLeap year then 29
  else daysBefore month - daysBefore (month - 1)

/-- Number of days from 0001-01-01 to 1970-01-01. -/
def unixEpochDays : Int := 719162

/-- Year and zero-based day of the year of a day number counted from
0001-01-01, by cutting off 400-year, 100-year, 4-year and 1-year cycles as
Go's `absDate` does.  Go shifts the epoch to a year far in the past to stay in
unsigned arithmetic; here floor division on integers plays that part. -/
def yearDay (d0 : Int) : Int × Int :=
  let n400 := d0 / 146097
  let d1 := d0 - 146097 * n400
  let n100 := d1 / 36524
  let n100 := n100 - n100 / 4
  let d2 := d1 - 36524 * n100
  let n4 := d2 / 1461
  let d3 := d2 - 1461 * n4
  let n := d3 / 365
  let n := n - n / 4
  let yday := d3 - 365 * n
  (400 * n400 + 100 * n100 + 4 * n4 + n + 1, yday)

/-- Month and day of the month of the zero-based day `day` of a year without
a leap day, as at the end of Go's `absDate`: the month is estimated as if every
month had 31 days, and the estimate, which may be one too low, is corrected. -/
def monthOfDay (day : Int) : Int × Int :=
  let month := day / 31
  let endDay := daysBefore (month + 1)
  if day ≥ endDay then (month + 2, day - endDay + 1)
  else (month + 1, day - daysBefore month + 1)

/-- Month and day of the month of the zero-based day `yday` of `year`, as in
the second half of Go's `absDate`: the leap day is answered directly, and a
day after it is shifted back by one before the month is looked up. -/
def monthDay (year : Int) (yday : Int) : Int × Int :=
  if isLeap year ∧ yday = 59 then (2, 29)
  else monthOfDay (if isLeap year ∧ yday > 59 then yday - 1 else yday)

/-- Civil date of a day number counted from 1970-01-01 (day 0). -/
def civilFromDays (z : Int) : Civil :=
  let yd := yearDay (z + unixEpochDays)
  let md := monthDay yd.1 yd.2
  { year := yd.1, month := md.1, day := md.2 }

/-- Go `daysSinceEpoch`, counted from 0001-01-01: the days before 1 January
of `year`. -/
def daysSinceEpoch (year : Int) : Int :=
  let y := year - 1
  let n400 := y / 400
  let y := y - 400 * n400
  let n100 := y / 100
  let y := y - 100 * n100
  let n4 := y / 4
  let y := y - 4 * n4
  146097 * n400 + 36524 * n100 + 1461 * n4 + 365 * y

/-- Day number (1970-01-01 is day 0) of a civil date, as Go's `Date` computes
it for a month between 1 and 12. -/
def daysFromCivil (c : Civil) : Int :=
  daysSinceEpoch c.year + daysBefore (c.month - 1) +
    (if isLeap c.year ∧ c.month ≥ 3 then 1 else 0) + (c.day - 1) - unixEpochDays

/-- Go `time.Date` for fields that are already in range: the instant of the
civil date and clock time read in a zone of the given fixed offset. -/
def Date (year month day hour min sec : Int) (offset : Int) : Time :=
  { sec := daysFromCivil ⟨year, month, day⟩ * 86400 + hour * 3600 + min * 60 + sec - offset
    nsec := 0
    loc := FixedZone offset }

/-- Decimal digit character of the last digit of `d`. -/
def digitChar (d : Nat) : Char := Char.ofNat (48 + d % 10)

/-- The `w` low-order decimal digits of `u`, most significant first. -/
def lowDigits : Nat → Nat → List Char
  | 0, _ => []
  | w + 1, u => lowDigits w (u / 10) ++ [digitChar u]

/-- Go `appendInt`: decimal rendering of `x`, a minus sign for a negative
number, zero-padded to `width` digits and longer when the number needs it. -/
def appendInt (x : Int) (width : Nat) : List Char :=
  let u := x.natAbs
  (if x < 0 then ['-'] else []) ++
    (if u < 10 ^ width then lowDigits width u else Nat.toDigits 10 u)

/-- The zone suffix of the RFC 3339 layout (`Z07:00`): `Z` for offset zero,
otherwise sign, hours and minutes.  Go divides the offset by 60 with
truncation, so seconds of the offset are not rendered. -/
def formatZone (offset : Int) : List Char :=
  if offset = 0 then ['Z']
  else
    let zone := Int.tdiv offset 60
    let sign := if zone < 0 then '-' else '+'
    let zone := if zone < 0 then -zone else zone
    [sign] ++ appendInt (zone / 60) 2 ++ [':'] ++ appendInt (zone % 60) 2

/-- Characters of `t.Format(time.RFC3339)`: the civil date and clock time of
the instant in the location of `t`, then the zone suffix; the nanoseconds are
not part of this layout. -/
def formatRFC3339Chars (t : Time) : List Char :=
  let offset := t.loc.lookup t.sec
  let abs := t.sec + offset
  let c := civilFromDays (abs / 86400)
  let sod := abs % 86400
  appendInt c.year 4 ++ ['-'] ++ appendInt c.month 2 ++ ['-'] ++ appendInt c.day 2 ++ ['T'] ++
    appendInt (sod / 3600) 2 ++ [':'] ++ appendInt (sod % 3600 / 60) 2 ++ [':'] ++
    appendInt (sod % 60) 2 ++ formatZone offset

/-- Go `t.Format(time.RFC3339)`. -/
def Time.FormatRFC3339 (t : Time) : String :=
  String.mk (formatRFC3339Chars t)

/-! ### Parsing the RFC 3339 layout -/

/-- Value of a decimal digit character. -/
def digitVal (c : Char) : Option Nat :=
  if 48 ≤ c.toNat ∧ c.toNat ≤ 57 then some (c.toNat - 48) else none

/-- Reads a number of exactly `w` decimal digits from the front of the input. -/
def takeNum : Nat → List Char → Option (Nat × List Char)
  | 0, s => some (0, s)
  | _ + 1, [] => none
  | w + 1, c :: s =>
    match digitVal c with
    | none => none
    | some d =>
      match takeNum w s with
      | none => none
      | some (n, rest) => some (d * 10 ^ w + n, rest)

/-- Reads one expected character from the front of the input. -/
def expectChar (c : Char) : List Char → Option (List Char)
  | [] => none
  | x :: s => if x = c then some s else none

/-- The zone suffix of an RFC 3339 time: `Z`, or a sign followed by two-digit
hours (at most 23), a colon and two-digit minutes (at most 59), with nothing
after it.  The result is the offset east of UTC in seconds.  Go's `time.Parse`
also takes larger hour and minute fields; this reader is stricter, and agrees
with Go on every suffix it accepts. -/
def parseZone : List Char → Option Int
  | [] => none
  | c :: s =>
    if c = 'Z' then (if s = [] then some 0 else none)
    else if c = '+' ∨ c = '-' then
      match takeNum 2 s with
      | none => none
      | some (hr, s1) =>
        match expectChar ':' s1 with
        | none => none
        | some s2 =>
          match takeNum 2 s2 with
          | none => none
          | some (mm, s3) =>
            if s3 = [] ∧ hr ≤ 23 ∧ mm ≤ 59 then
              some (if c = '-' then -(((hr : Int) * 60 + mm) * 60) else ((hr : Int) * 60 + mm) * 60)
            else none
    else none

/-- Go `time.Parse(time.RFC3339, s)` on the strings that `Format` with this
layout produces: four-digit year, two-digit month, day, hour, minute and
second between the separators of the layout, then the zone.  Month, day of the
month, hour, minute and second out of range are rejected; the instant is the
civil time minus the zone offset.  Go's parser takes more strings (a
fractional second, a one-digit hour); this reader rejects them, and gives the
instant Go gives on every string it accepts. -/
def parseRFC3339Chars (s : List Char) : Option Time :=
  match takeNum 4 s with
  | none => none
  | some (year, s) =>
  match expectChar '-' s with
  | none => none
  | some s =>
  match takeNum 2 s with
  | none => none
  | some (month, s) =>
  match expectChar '-' s with
  | none => none
  | some s =>
  match takeNum 2 s with
  | none => none
  | some (day, s) =>
  match expectChar 'T' s with
  | none => none
  | some s =>
  match takeNum 2 s with
  | none => none
  | some (hour, s) =>
  match expectChar ':' s with
  | none => none
  | some s =>
  match takeNum 2 s with
  | none => none
  | some (min, s) =>
  match expectChar ':' s with
  | none => none
  | some s =>
  match takeNum 2 s with
  | none => none
  | some (sec, s) =>
  match parseZone s with
  | none => none
  | some offset =>
    if 1 ≤ month ∧ month ≤ 12 ∧ 1 ≤ day ∧ (day : Int) ≤ daysIn month year ∧
        hour < 24 ∧ min < 60 ∧ sec < 60 then
      some (Date year month day hour min sec offset)
    else none

/-- Go `time.Parse(time.RFC3339, s)`, see `parseRFC3339Chars`. -/
def ParseRFC3339 (s : String) : Option Time :=
  parseRFC3339Chars s.toList

/-! ## Strings and JSON -/

/-- Go `unicode.IsSpace`: the white space characters of Unicode. -/
def isSpace (c : Char) : Bool :=
  let n := c.toNat
  (9 ≤ n ∧ n ≤ 13) ∨ n = 32 ∨ n = 0x85 ∨ n = 0xA0 ∨ n = 0x1680 ∨
    (0x2000 ≤ n ∧ n ≤ 0x200A) ∨ n = 0x2028 ∨ n = 0x2029 ∨ n = 0x202F ∨
    n = 0x205F ∨ n = 0x3000

/-- Go `strings.TrimSpace`: the string without its leading and trailing white
space. -/
def TrimSpace (s : String) : String :=
  String.mk ((s.toList.dropWhile isSpace).reverse.dropWhile isSpace).reverse

/-- A value stored in the map of line 100 (`map[string]interface{}`): the
source only stores strings and the `int64` of `t.Unix()`. -/
inductive Value where
  | str (s : String)
  | int (n : Int)
deriving DecidableEq, Repr

/-- Assignment to a key in a list of entries: replaces the entry of the key
or adds one. -/
def setEntry : List (String × Value) → String → Value → List (String × Value)
  | [], k, v => [(k, v)]
  | (k1, v1) :: rest, k, v =>
    if k1 = k then (k, v) :: rest else (k1, v1) :: setEntry rest k v

/-- Lookup of a key in a list of entries. -/
def getEntry : List (String × Value) → String → Option Value
  | [], _ => none
  | (k1, v1) :: rest, k => if k1 = k then some v1 else getEntry rest k

/-- Go `map[string]interface{}` as an association list; built with `set` from
`empty` it has at most one entry per key.  The order of the list carries no
meaning: `Marshal` sorts by key. -/
structure Record where
  entries : List (String × Value)
deriving DecidableEq, Repr

/-- The map made by `make(map[string]interface{})`. -/
def Record.empty : Record := ⟨[]⟩

/-- Assignment `m[k] = v`. -/
def Record.set (m : Record) (k : String) (v : Value) : Record :=
  ⟨setEntry m.entries k v⟩

/-- Lookup `m[k]`: `none` when the key is absent. -/
def Record.get? (m : Record) (k : String) : Option Value :=
  getEntry m.entries k

/-- Byte-wise order of two strings, the order `json.Marshal` sorts map keys
by.  On valid UTF-8 it is the lexicographic order of the code points. -/
def keyLess : List Char → List Char → Bool
  | _, [] => false
  | [], _ :: _ => true
  | a :: as, b :: bs => a.toNat < b.toNat ∨ (a = b ∧ keyLess as bs)

/-- Inserts an entry into a list of entries sorted by key. -/
def insertSorted (e : String × Value) : List (String × Value) → List (String × Value)
  | [] => [e]
  | x :: rest =>
    if keyLess x.1.toList e.1.toList then x :: insertSorted e rest else e :: x :: rest

/-- The entries of a map sorted by key. -/
def sortByKey (m : List (String × Value)) : List (String × Value) :=
  m.foldr insertSorted []

/-- Lower-case hexadecimal digit. -/
def hexChar (n : Nat) : Char :=
  if n % 16 < 10 then Char.ofNat (48 + n % 16) else Char.ofNat (87 + n % 16)

/-- Escaping of one character inside a JSON string by `json.Marshal` (HTML
escaping on, the default): quote and backslash get a backslash, line feed,
carriage return and tab their short forms, other control characters and
`<`, `>`, `&` the form `\u00XX`, and U+2028, U+2029 the form `\u202X`.
This is the behaviour up to Go 1.21; from Go 1.22 on, U+0008 and U+000C are
written in the short forms `\b` and `\f` instead of `\u0008` and `\u000c`. -/
def escapeChar (c : Char) : List Char :=
  let bs := Char.ofNat 92
  if c.toNat = 34 ∨ c.toNat = 92 then [bs, c]
  else if c.toNat = 10 then [bs, 'n']
  else if c.toNat = 13 then [bs, 'r']
  else if c.toNat = 9 then [bs, 't']
  else if c.toNat < 32 ∨ c = '<' ∨ c = '>' ∨ c = '&' then
    [bs, 'u', '0', '0', hexChar (c.toNat / 16), hexChar c.toNat]
  else if c.toNat = 0x2028 ∨ c.toNat = 0x2029 then
    [bs, 'u', '2', '0', '2', hexChar c.toNat]
  else [c]

/-- A JSON string literal. -/
def marshalString (s : String) : String :=
  "\"" ++ String.mk (s.toList.flatMap escapeChar) ++ "\""

/-- JSON text of a value: a string literal or a decimal integer. -/
def marshalValue : Value → String
  | .str s => marshalString s
  | .int n => toString n

/-- One member `"key":value` of a JSON object. -/
def marshalEntry (e : String × Value) : String :=
  marshalString e.1 ++ ":" ++ marshalValue e.2

/-- Go `json.Marshal(m)` for the map of line 100: a compact JSON object whose
members are in ascending order of their keys.  The call cannot fail on a map
of strings and integers. -/
def Marshal (m : Record) : String :=
  "\x7b" ++ String.intercalate "," ((sortByKey m.entries).map marshalEntry) ++ "\x7d"

/-! ## Events of the remote API -/

/-- Go `types.ManagedObjectReference`. -/
structure ManagedObjectReference where
  Type_ : String
  Value : String
deriving DecidableEq, Repr

/-- Go `types.HostEventArgument` and `types.VmEventArgument`: a named
reference to an entity. -/
structure EntityEventArgument where
  Name : String
  Ref : ManagedObjectReference
deriving DecidableEq, Repr

/-- Go `types.Event`, the fields the program reads.  `Host` and `Vm` are
pointers in Go: `none` is the nil pointer. -/
structure Event where
  CreatedTime : Time
  UserName : String
  Host : Option EntityEventArgument
  Vm : Option EntityEventArgument
  FullFormattedMessage : String

/-- Go `types.TaskInfo`, the fields the program reads.  `Entity` is a pointer
in Go (`*ManagedObjectReference`, optional in the API): `none` is nil. -/
structure TaskInfo where
  Entity : Option ManagedObjectReference
  EntityName : String
deriving DecidableEq, Repr

/-- Go `types.BaseEvent`, split by what the type assertion of line 102 sees:
a value whose dynamic type is `*types.TaskEvent`, or a value of any other
event type. -/
inductive BaseEvent where
  | TaskEvent (event : Event) (Info : TaskInfo)
  | other (event : Event)

/-- Go `e.GetEvent()`: the common part of an event. -/
def BaseEvent.GetEvent : BaseEvent → Event
  | .TaskEvent event _ => event
  | .other event => event

/-- A Go `error`; a program can only observe its message. -/
structure GoError where
  msg : String
deriving DecidableEq, Repr

/-- Outcome of `eventManager.EventCategory(ctx, e)`: a category, or a failure.
On failure govmomi returns the empty string next to the error. -/
inductive LookupResult where
  | ok (category : String)
  | failed (err : GoError)
deriving DecidableEq, Repr

/-- The first result of the lookup, which is all that line 97 keeps
(`category, _ := ...`). -/
def LookupResult.category : LookupResult → String
  | .ok c => c
  | .failed _ => ""

/-! ## Normalization of one event (lines 98-119) -/

/-- The map built for one event.  `none` stands for the run-time panic of
line 104: `t.Info.Entity.Type` dereferences `Entity`, which is nil when the
task has no entity. -/
def normalize (e : BaseEvent) (category : String) : Option Record :=
  let event := e.GetEvent
  let msg := TrimSpace event.FullFormattedMessage
  let m := Record.empty
  let m := m.set "type" (.str "Event")
  let afterTask : Option Record :=
    match e with
    | .TaskEvent _ Info =>
      let m := m.set "type" (.str "Task")
      match Info.Entity with
      | none => none
      | some entity =>
        let m := m.set "targetType" (.str entity.Type_)
        some (m.set "targetName" (.str Info.EntityName))
    | .other _ => some m
  match afterTask with
  | none => none
  | some m =>
    let m := m.set "message" (.str msg)
    let m := m.set "category" (.str category)
    let m := match event.Host with
      | some h => if h.Name ≠ "" then m.set "host" (.str h.Name) else m
      | none => m
    let m := match event.Vm with
      | some v => if v.Name ≠ "" then m.set "vm" (.str v.Name) else m
      | none => m
    let m := if event.UserName ≠ "" then m.set "username" (.str event.UserName) else m
    let t := event.CreatedTime
    some (m.set "time" (.int t.Unix))

/-- The line written for an event whose map is `m` (lines 120-121): the
creation time in the local zone, a tab, the JSON object, a line feed. -/
def eventLine (localZone : Location) (e : BaseEvent) (m : Record) : String :=
  let t := e.GetEvent.CreatedTime
  (t.Local localZone).FormatRFC3339 ++ "\t" ++ Marshal m ++ "\n"

/-- The line of a batch item, when its map can be built. -/
def lineOf (localZone : Location) (item : BaseEvent × LookupResult) : Option String :=
  (normalize item.1 item.2.category).map (eventLine localZone item.1)

/-! ## The process -/

/-- Whether the process still runs, has left through `os.Exit`, or was
stopped by a run-time panic (the Go run time then prints its own trace and
ends the process with status 2; `exit` is not involved). -/
inductive Status where
  | running
  | exited (code : Nat)
  | panicked
deriving DecidableEq, Repr

/-- Operations on the outside world, in the order the process issues them. -/
inductive Step where
  | parseURL
  | newClient
  | defaultDatacenter
  | createCollector
  | setPageSize (n : Nat)
  | reset
  | readNextEvents (max : Nat)
  | eventCategory
  | sleep (nanoseconds : Nat)
deriving DecidableEq, Repr

/-- Observable state of the process: what the program wrote to standard output
and to the error stream (one entry per write), the operations issued, and the
status.  The trace that the Go run time prints when the process panics is not
a write of the program; it is represented by the status `panicked` alone. -/
structure Proc where
  stdout : List String
  stderr : List String
  steps : List Step
  status : Status
deriving DecidableEq, Repr

/-- The process when `main` starts. -/
def Proc.start : Proc :=
  { stdout := [], stderr := [], steps := [], status := .running }

/-- A write to standard output. -/
def Proc.print (p : Proc) (s : String) : Proc :=
  { p with stdout := p.stdout ++ [s] }

/-- Records an operation. -/
def Proc.log (p : Proc) (st : Step) : Proc :=
  { p with steps := p.steps ++ [st] }

/-- Source lines 18-21: report the error and leave with status 1. -/
def exit (err : GoError) (p : Proc) : Proc :=
  { p with stderr := p.stderr ++ ["Error: " ++ err.msg ++ "\n"], status := .exited 1 }

/-- Body of the inner loop (lines 97-121) for one event and the outcome of
its category lookup. -/
def processEvent (localZone : Location) (item : BaseEvent × LookupResult) (p : Proc) : Proc :=
  let p := p.log .eventCategory
  let category := item.2.category
  match normalize item.1 category with
  | none => { p with status := .panicked }
  | some m => p.print (eventLine localZone item.1 m)

/-- The inner loop (lines 96-122): the events in order, as long as the
process runs. -/
def processItems (localZone : Location) : List (BaseEvent × LookupResult) → Proc → Proc
  | [], p => p
  | item :: rest, p =>
    let p1 := processEvent localZone item p
    match p1.status with
    | .running => processItems localZone rest p1
    | _ => p1

/-- Outcome of `collector.ReadNextEvents(ctx, 10)`: an error, or a batch of
events, each with the outcome its category lookup will have. -/
abbrev FetchResult := Except GoError (List (BaseEvent × LookupResult))

/-- One iteration of the outer loop (lines 90-123). -/
def pollOnce (localZone : Location) (r : FetchResult) (p : Proc) : Proc :=
  let p := p.log (.readNextEvents 10)
  match r with
  | .error err => exit err p
  | .ok items =>
    let p1 := processItems localZone items p
    match p1.status with
    | .running => p1.log (.sleep (10 * 1000 * 1000 * 1000))
    | _ => p1

/-- The outer loop (lines 89-125) over the outcomes of the successive
fetches; it stops when the process has ended. -/
def pollLoop (localZone : Location) : List FetchResult → Proc → Proc
  | [], p => p
  | r :: rest, p =>
    match p.status with
    | .running => pollLoop localZone rest (pollOnce localZone r p)
    | _ => p

/-- Outcome of the startup steps that can fail: `none` is success. -/
structure Startup where
  parseURL : Option GoError
  newClient : Option GoError
  defaultDatacenter : Option GoError
  createCollector : Option GoError
deriving DecidableEq, Repr

/-- Source lines 46-47: the defaults of the two flags. -/
def flagDefaults (env : Env) : String × Bool :=
  (GetEnvString env envURL "", GetEnvBool env envInsecure false)

/-- The function `main` after `flag.Parse` (lines 51-125), for the flag values
`vcUrl` and `insecure`.  The error of `CreateCollectorForEvents` (line 83) is
never inspected: on failure the collector is nil and line 84,
`defer collector.Destroy(ctx)`, dereferences it, which is a run-time panic. -/
def main (vcUrl : String) (insecure : Bool) (localZone : Location) (st : Startup)
    (fetches : List FetchResult) : Proc :=
  let p := Proc.start.print (banner vcUrl insecure)
  let p := p.log .parseURL
  match st.parseURL with
  | some err => exit err p
  | none =>
  let p := p.log .newClient
  match st.newClient with
  | some err => exit err p
  | none =>
  let p := p.log .defaultDatacenter
  match st.defaultDatacenter with
  | some err => exit err p
  | none =>
  let p := p.log .createCollector
  match st.createCollector with
  | some _ => { p with status := .panicked }
  | none =>
  let p := p.log (.setPageSize 0)
  let p := p.log .reset
  pollLoop localZone fetches p

/-! ## Concrete inputs -/

/-- The generic event of the scenario: message with blanks around it, host
`esx01`, no VM, no user name, created at 2024-01-01T00:00:00Z. -/
def scenarioEvent : BaseEvent :=
  .other
    { CreatedTime := Date 2024 1 1 0 0 0 0
      UserName := ""
      Host := some ⟨"esx01", ⟨"HostSystem", "host-9"⟩⟩
      Vm := none
      FullFormattedMessage := "  VM powered on  " }

/-- The map that lines 100-119 build for the event of the scenario after a
lookup that returned the category `info`, in the order of the assignments. -/
def scenarioRecord : Record :=
  ⟨[("type", .str "Event"), ("message", .str "VM powered on"), ("category", .str "info"),
    ("host", .str "esx01"), ("time", .int 1704067200)]⟩

/-- An event created at the Unix epoch. -/
def epochEvent : BaseEvent :=
  .other
    { CreatedTime := ⟨0, 0, UTC⟩
      UserName := ""
      Host := none
      Vm := none
      FullFormattedMessage := "clock reset" }

/-- The zone `Africa/Monrovia` as it was until January 1972: 44 minutes and
30 seconds west of UTC. -/
def monroviaZone : Location := FixedZone (-2670)

/-- A zone nine hours east of UTC. -/
def tokyoZone : Location := FixedZone 32400

/-! ## The calendar and the RFC 3339 layout -/

theorem isLeap_iff (y : Int) : isLeap y = true ↔ (y % 4 = 0 ∧ (y % 100 ≠ 0 ∨ y % 400 = 0)) := by
  simp [isLeap]

theorem yearDay_core (d0 a d1 c' c d2 e d3 f' f yd : Int)
    (ha : a = d0 / 146097) (hd1 : d1 = d0 - 146097 * a) (hc' : c' = d1 / 36524)
    (hc : c = c' - c' / 4) (hd2 : d2 = d1 - 36524 * c) (he : e = d2 / 1461)
    (hd3 : d3 = d2 - 1461 * e) (hf' : f' = d3 / 365) (hf : f = f' - f' / 4)
    (hyd : yd = d3 - 365 * f) :
    0 ≤ c ∧ c ≤ 3 ∧ 0 ≤ e ∧ e ≤ 24 ∧ 0 ≤ f ∧ f ≤ 3 ∧ 0 ≤ yd ∧ yd ≤ 365 ∧
      (yd = 365 → f = 3 ∧ (e ≠ 24 ∨ c = 3)) ∧
      d0 = 146097 * a + 36524 * c + 1461 * e + 365 * f + yd := by
  have h1 : 0 ≤ d1 ∧ d1 ≤ 146096 := by omega
  have h2 : c' = 0 ∨ c' = 1 ∨ c' = 2 ∨ c' = 3 ∨ c' = 4 := by omega
  have h3 : 0 ≤ d2 ∧ d2 ≤ 36524 ∧ (d2 = 36524 → c = 3) ∧ 0 ≤ c ∧ c ≤ 3 := by
    rcases h2 with h | h | h | h | h <;> omega
  have h4 : 0 ≤ e ∧ e ≤ 24 := by omega
  have h5 : 0 ≤ d3 ∧ d3 ≤ 1460 ∧ (d3 = 1460 ∧ e = 24 → c = 3) := by omega
  have h6 : f' = 0 ∨ f' = 1 ∨ f' = 2 ∨ f' = 3 ∨ f' = 4 := by omega
  rcases h6 with h | h | h | h | h <;> omega

theorem daysSinceEpoch_eq (a c e f : Int) (hc : 0 ≤ c ∧ c ≤ 3) (he : 0 ≤ e ∧ e ≤ 24)
    (hf : 0 ≤ f ∧ f ≤ 3) :
    daysSinceEpoch (400 * a + 100 * c + 4 * e + f + 1) =
      146097 * a + 36524 * c + 1461 * e + 365 * f := by
  simp only [daysSinceEpoch]
  have h1 : (400 * a + 100 * c + 4 * e + f + 1 - 1) / 400 = a := by omega
  rw [h1]
  have h2 : (400 * a + 100 * c + 4 * e + f + 1 - 1 - 400 * a) / 100 = c := by omega
  rw [h2]
  have h3 : (400 * a + 100 * c + 4 * e + f + 1 - 1 - 400 * a - 100 * c) / 4 = e := by omega
  rw [h3]
  omega

theorem isLeap_eq (a c e f : Int) (hc : 0 ≤ c ∧ c ≤ 3) (he : 0 ≤ e ∧ e ≤ 24)
    (hf : 0 ≤ f ∧ f ≤ 3) :
    isLeap (400 * a + 100 * c + 4 * e + f + 1) = true ↔ (f = 3 ∧ (e ≠ 24 ∨ c = 3)) := by
  rw [isLeap_iff]
  omega

theorem yearDay_spec (d0 : Int) :
    daysSinceEpoch (yearDay d0).1 + (yearDay d0).2 = d0 ∧ 0 ≤ (yearDay d0).2 ∧
      (yearDay d0).2 ≤ 364 + (if isLeap (yearDay d0).1 then 1 else 0) := by
  obtain ⟨hc0, hc3, he0, he24, hf0, hf3, hy0, hy365, hleap, hsum⟩ :=
    yearDay_core d0 _ _ _ _ _ _ _ _ _ _ rfl rfl rfl rfl rfl rfl rfl rfl rfl rfl
  have hd := daysSinceEpoch_eq (d0 / 146097) _ _ _ ⟨hc0, hc3⟩ ⟨he0, he24⟩ ⟨hf0, hf3⟩
  have hl := isLeap_eq (d0 / 146097) _ _ _ ⟨hc0, hc3⟩ ⟨he0, he24⟩ ⟨hf0, hf3⟩
  simp only [yearDay]
  refine ⟨?_, hy0, ?_⟩
  · rw [hd]; omega
  · split
    · omega
    · rename_i h
      rw [hl] at h
      omega

theorem daysBefore_vals :
    daysBefore 0 = 0 ∧ daysBefore 1 = 31 ∧ daysBefore 2 = 59 ∧ daysBefore 3 = 90 ∧
    daysBefore 4 = 120 ∧ daysBefore 5 = 151 ∧ daysBefore 6 = 181 ∧ daysBefore 7 = 212 ∧
    daysBefore 8 = 243 ∧ daysBefore 9 = 273 ∧ daysBefore 10 = 304 ∧ daysBefore 11 = 334 ∧
    daysBefore 12 = 365 := by
  decide

theorem monthOfDay_spec (day : Int) (h0 : 0 ≤ day) (h1 : day ≤ 364) :
    1 ≤ (monthOfDay day).1 ∧ (monthOfDay day).1 ≤ 12 ∧ 1 ≤ (monthOfDay day).2 ∧
      (monthOfDay day).2 ≤ daysBefore (monthOfDay day).1 - daysBefore ((monthOfDay day).1 - 1) ∧
      daysBefore ((monthOfDay day).1 - 1) + ((monthOfDay day).2 - 1) = day := by
  obtain ⟨v0, v1, v2, v3, v4, v5, v6, v7, v8, v9, v10, v11, v12⟩ := daysBefore_vals
  have hk : day / 31 = 0 ∨ day / 31 = 1 ∨ day / 31 = 2 ∨ day / 31 = 3 ∨ day / 31 = 4 ∨
      day / 31 = 5 ∨ day / 31 = 6 ∨ day / 31 = 7 ∨ day / 31 = 8 ∨ day / 31 = 9 ∨
      day / 31 = 10 ∨ day / 31 = 11 := by
    omega
  simp only [monthOfDay]
  rcases hk with h | h | h | h | h | h | h | h | h | h | h | h <;>
    simp only [h, Int.reduceAdd, Int.reduceSub, zero_add] <;>
    split <;> simp only [Int.reduceAdd, Int.reduceSub, Int.add_sub_cancel] <;> omega

theorem monthDay_spec (year yday : Int) (h0 : 0 ≤ yday)
    (h1 : yday ≤ 364 + (if isLeap year then 1 else 0)) :
    1 ≤ (monthDay year yday).1 ∧ (monthDay year yday).1 ≤ 12 ∧ 1 ≤ (monthDay year yday).2 ∧
      (monthDay year yday).2 ≤ daysIn (monthDay year yday).1 year ∧
      daysBefore ((monthDay year yday).1 - 1) +
        (if isLeap year ∧ (monthDay year yday).1 ≥ 3 then 1 else 0) +
        ((monthDay year yday).2 - 1) = yday := by
  obtain ⟨v0, v1, v2, v3, v4, v5, v6, v7, v8, v9, v10, v11, v12⟩ := daysBefore_vals
  cases hL : isLeap year
  · simp only [hL, Bool.false_eq_true, if_false] at h1
    have hm := monthOfDay_spec yday h0 (by omega)
    simp only [monthDay, daysIn, hL, Bool.false_eq_true, false_and, and_false, if_false]
    omega
  · simp only [hL, if_true] at h1
    simp only [monthDay, daysIn, hL, true_and, and_true]
    by_cases h59 : yday = 59
    · simp only [h59, if_true]
      norm_num [v1]
    · simp only [h59, if_false]
      by_cases hgt : yday > 59
      · simp only [hgt, if_true]
        have hm := monthOfDay_spec (yday - 1) (by omega) (by omega)
        obtain ⟨a1, a2, a3, a4, a5⟩ := hm
        have hk : (monthOfDay (yday - 1)).1 = 1 ∨ (monthOfDay (yday - 1)).1 = 2 ∨
            (monthOfDay (yday - 1)).1 ≥ 3 := by omega
        rcases hk with h | h | h
        · rw [h] at a4 a5; norm_num [v0, v1] at a4 a5; omega
        · rw [h] at a4 a5; norm_num [v2, v1] at a4 a5; omega
        · have h2 : ¬ (monthOfDay (yday - 1)).1 = 2 := by omega
          simp only [h2, if_false, h, if_true]
          omega
      · simp only [hgt, if_false]
        have hm := monthOfDay_spec yday h0 (by omega)
        obtain ⟨a1, a2, a3, a4, a5⟩ := hm
        have hk : (monthOfDay yday).1 = 1 ∨ (monthOfDay yday).1 = 2 ∨
            (monthOfDay yday).1 = 3 ∨ (monthOfDay yday).1 ≥ 4 := by omega
        rcases hk with h | h | h | h
        · rw [h] at a4 a5 ⊢; norm_num [v0, v1] at a4 a5 ⊢; omega
        · rw [h] at a4 a5 ⊢; norm_num [v2, v1] at a4 a5 ⊢; omega
        · rw [h] at a4 a5; norm_num [v2, v3] at a4 a5; omega
        · exfalso
          have : daysBefore ((monthOfDay yday).1 - 1) ≥ 90 := by
            have hk2 : (monthOfDay yday).1 = 4 ∨ (monthOfDay yday).1 = 5 ∨
              (monthOfDay yday).1 = 6 ∨ (monthOfDay yday).1 = 7 ∨ (monthOfDay yday).1 = 8 ∨
              (monthOfDay yday).1 = 9 ∨ (monthOfDay yday).1 = 10 ∨ (monthOfDay yday).1 = 11 ∨
              (monthOfDay yday).1 = 12 := by omega
            rcases hk2 with h | h | h | h | h | h | h | h | h <;> rw [h] <;> norm_num <;> omega
          omega

theorem civil_roundtrip (z : Int) :
    daysFromCivil (civilFromDays z) = z ∧
      1 ≤ (civilFromDays z).month ∧ (civilFromDays z).month ≤ 12 ∧
      1 ≤ (civilFromDays z).day ∧
      (civilFromDays z).day ≤ daysIn (civilFromDays z).month (civilFromDays z).year := by
  obtain ⟨y1, y2, y3⟩ := yearDay_spec (z + unixEpochDays)
  obtain ⟨m1, m2, m3, m4, m5⟩ := monthDay_spec _ _ y2 y3
  simp only [daysFromCivil, civilFromDays]
  refine ⟨by omega, m1, m2, m3, m4⟩

theorem digitVal_digitChar (d : Nat) : digitVal (digitChar d) = some (d % 10) := by
  have h : d % 10 < 10 := Nat.mod_lt _ (by decide)
  simp only [digitChar]
  generalize d % 10 = k at h
  interval_cases k <;> decide

theorem appendInt_small (x : Int) (w : Nat) (h0 : 0 ≤ x) (h1 : x < 10 ^ w) :
    appendInt x w = lowDigits w x.toNat := by
  have h2 : ¬ x < 0 := by omega
  have h3 : x.natAbs < 10 ^ w := by
    have : (x.natAbs : Int) < ((10 ^ w : Nat) : Int) := by
      rw [Int.natAbs_of_nonneg h0]; push_cast; exact h1
    exact_mod_cast this
  have h4 : x.natAbs = x.toNat := by omega
  rw [h4] at h3
  simp only [appendInt, h2, if_false, h4, h3, if_true, List.nil_append]

theorem takeNum_two (x : Int) (rest : List Char) (h0 : 0 ≤ x) (h1 : x < 100) :
    takeNum 2 (appendInt x 2 ++ rest) = some (x.toNat, rest) := by
  rw [appendInt_small x 2 h0 (by norm_num; exact h1)]
  have hx : x.toNat < 100 := by omega
  generalize x.toNat = u at hx ⊢
  simp only [lowDigits, takeNum, List.nil_append, List.cons_append, digitVal_digitChar]
  simp only [Option.some.injEq, Prod.mk.injEq, and_true]
  exact ⟨by norm_num; omega, rfl⟩

theorem takeNum_four (x : Int) (rest : List Char) (h0 : 0 ≤ x) (h1 : x < 10000) :
    takeNum 4 (appendInt x 4 ++ rest) = some (x.toNat, rest) := by
  rw [appendInt_small x 4 h0 (by norm_num; exact h1)]
  have hx : x.toNat < 10000 := by omega
  generalize x.toNat = u at hx ⊢
  simp only [lowDigits, takeNum, List.nil_append, List.cons_append, digitVal_digitChar]
  simp only [Option.some.injEq, Prod.mk.injEq, and_true]
  exact ⟨by norm_num; omega, rfl⟩

theorem expectChar_cons (c : Char) (rest : List Char) : expectChar c (c :: rest) = some rest := by
  simp [expectChar]

theorem takeNum_two_end (x : Int) (h0 : 0 ≤ x) (h1 : x < 100) :
    takeNum 2 (appendInt x 2) = some (x.toNat, []) := by
  have := takeNum_two x [] h0 h1
  rwa [List.append_nil] at this

theorem parseZone_formatZone (off : Int) (hm : off % 60 = 0) (hlo : -86400 < off)
    (hhi : off < 86400) : parseZone (formatZone off) = some off := by
  by_cases h0 : off = 0
  · subst h0; decide
  · simp only [formatZone, h0, if_false]
    by_cases hneg : off < 0
    · have hv : -(Int.tdiv off 60) = (-off) / 60 := by
        have := Int.neg_tdiv (-off) 60
        rw [neg_neg] at this
        rw [this, Int.tdiv_eq_ediv (by omega) (by omega)]
        omega
      have hz : Int.tdiv off 60 < 0 := by omega
      simp only [hz, if_true, hv, List.singleton_append, List.cons_append, List.append_assoc,
        List.nil_append, parseZone]
      rw [takeNum_two (-off / 60 / 60) _ (by omega) (by omega)]
      simp only [expectChar_cons]
      rw [takeNum_two_end (-off / 60 % 60) (by omega) (by omega)]
      have e1 : ((-off / 60 / 60).toNat : Int) = -off / 60 / 60 := Int.toNat_of_nonneg (by omega)
      have e2 : ((-off / 60 % 60).toNat : Int) = -off / 60 % 60 := Int.toNat_of_nonneg (by omega)
      have b1 : (-off / 60 / 60).toNat ≤ 23 := by omega
      have b2 : (-off / 60 % 60).toNat ≤ 59 := by omega
      simp only [e1, e2, b1, b2, and_self, if_true]
      simp
      omega
    · have hv : Int.tdiv off 60 = off / 60 := Int.tdiv_eq_ediv (by omega) (by omega)
      have hz : ¬ off / 60 < 0 := by omega
      simp only [hv, hz, if_false, List.singleton_append, List.cons_append, List.append_assoc,
        List.nil_append, parseZone]
      rw [takeNum_two (off / 60 / 60) _ (by omega) (by omega)]
      simp only [expectChar_cons]
      rw [takeNum_two_end (off / 60 % 60) (by omega) (by omega)]
      have e1 : ((off / 60 / 60).toNat : Int) = off / 60 / 60 := Int.toNat_of_nonneg (by omega)
      have e2 : ((off / 60 % 60).toNat : Int) = off / 60 % 60 := Int.toNat_of_nonneg (by omega)
      have b1 : (off / 60 / 60).toNat ≤ 23 := by omega
      have b2 : (off / 60 % 60).toNat ≤ 59 := by omega
      simp only [e1, e2, b1, b2, and_self, if_true]
      simp
      omega

theorem parse_format_chars (t : Time) (hm : t.loc.lookup t.sec % 60 = 0)
    (hlo : -86400 < t.loc.lookup t.sec) (hhi : t.loc.lookup t.sec < 86400)
    (hy0 : 0 ≤ (civilFromDays ((t.sec + t.loc.lookup t.sec) / 86400)).year)
    (hy1 : (civilFromDays ((t.sec + t.loc.lookup t.sec) / 86400)).year ≤ 9999) :
    (parseRFC3339Chars (formatRFC3339Chars t)).map Time.Unix = some t.sec := by
  obtain ⟨hr, hm1, hm12, hd1, hdn⟩ := civil_roundtrip ((t.sec + t.loc.lookup t.sec) / 86400)
  generalize hoff : t.loc.lookup t.sec = off at *
  generalize hc : civilFromDays ((t.sec + off) / 86400) = c at *
  have hdmax : c.day ≤ 31 := by
    have : daysIn c.month c.year ≤ 31 := by
      obtain ⟨v0, v1, v2, v3, v4, v5, v6, v7, v8, v9, v10, v11, v12⟩ := daysBefore_vals
      simp only [daysIn]
      split
      · omega
      · have hk : c.month = 1 ∨ c.month = 2 ∨ c.month = 3 ∨ c.month = 4 ∨ c.month = 5 ∨
            c.month = 6 ∨ c.month = 7 ∨ c.month = 8 ∨ c.month = 9 ∨ c.month = 10 ∨
            c.month = 11 ∨ c.month = 12 := by omega
        rcases hk with h | h | h | h | h | h | h | h | h | h | h | h <;> rw [h] <;>
          norm_num <;> omega
    omega
  simp only [formatRFC3339Chars, hoff, hc, parseRFC3339Chars, List.append_assoc,
    List.singleton_append, List.cons_append, List.nil_append]
  rw [takeNum_four c.year _ hy0 (by omega)]
  simp only [expectChar_cons]
  rw [takeNum_two c.month _ (by omega) (by omega)]
  simp only [expectChar_cons]
  rw [takeNum_two c.day _ (by omega) (by omega)]
  simp only [expectChar_cons]
  rw [takeNum_two ((t.sec + off) % 86400 / 3600) _ (by omega) (by omega)]
  simp only [expectChar_cons]
  rw [takeNum_two ((t.sec + off) % 86400 % 3600 / 60) _ (by omega) (by omega)]
  simp only [expectChar_cons]
  rw [takeNum_two ((t.sec + off) % 86400 % 60) _ (by omega) (by omega)]
  simp only [parseZone_formatZone off hm hlo hhi]
  have e1 : (c.year.toNat : Int) = c.year := Int.toNat_of_nonneg hy0
  have e2 : (c.month.toNat : Int) = c.month := Int.toNat_of_nonneg (by omega)
  have e3 : (c.day.toNat : Int) = c.day := Int.toNat_of_nonneg (by omega)
  have e4 : ((((t.sec + off) % 86400 / 3600).toNat : Nat) : Int) = (t.sec + off) % 86400 / 3600 :=
    Int.toNat_of_nonneg (by omega)
  have e5 : ((((t.sec + off) % 86400 % 3600 / 60).toNat : Nat) : Int) =
      (t.sec + off) % 86400 % 3600 / 60 := Int.toNat_of_nonneg (by omega)
  have e6 : ((((t.sec + off) % 86400 % 60).toNat : Nat) : Int) = (t.sec + off) % 86400 % 60 :=
    Int.toNat_of_nonneg (by omega)
  have c1 : 1 ≤ c.month.toNat ∧ c.month.toNat ≤ 12 ∧ 1 ≤ c.day.toNat := by omega
  have c2 : ((t.sec + off) % 86400 / 3600).toNat < 24 ∧
      ((t.sec + off) % 86400 % 3600 / 60).toNat < 60 ∧
      ((t.sec + off) % 86400 % 60).toNat < 60 := by omega
  simp only [e1, e2, e3, e4, e5, e6, c1, c2, hdn, and_self, if_true, Option.map_some',
    Time.Unix, Date, Option.some.injEq]
  have hcc : (⟨c.year, c.month, c.day⟩ : Civil) = c := rfl
  rw [hcc, hr]
  omega

theorem parse_format (t : Time) (hm : t.loc.lookup t.sec % 60 = 0)
    (hlo : -86400 < t.loc.lookup t.sec) (hhi : t.loc.lookup t.sec < 86400)
    (hy0 : 0 ≤ (civilFromDays ((t.sec + t.loc.lookup t.sec) / 86400)).year)
    (hy1 : (civilFromDays ((t.sec + t.loc.lookup t.sec) / 86400)).year ≤ 9999) :
    (ParseRFC3339 t.FormatRFC3339).map Time.Unix = some t.sec := by
  simp only [ParseRFC3339, Time.FormatRFC3339]
  exact parse_format_chars t hm hlo hhi hy0 hy1

/-! ## Records -/

theorem getEntry_setEntry (l : List (String × Value)) (k : String) (v : Value) (k' : String) :
    getEntry (setEntry l k v) k' = if k = k' then some v else getEntry l k' := by
  induction l with
  | nil => simp [setEntry, getEntry]
  | cons x rest ih =>
    obtain ⟨k1, v1⟩ := x
    by_cases h1 : k1 = k
    · subst h1
      by_cases h2 : k1 = k' <;> simp [setEntry, getEntry, h2]
    · by_cases h2 : k1 = k'
      · subst h2
        have h3 : ¬ k = k1 := fun h => h1 h.symm
        simp [setEntry, getEntry, h1, h3]
      · simp [setEntry, getEntry, h1, h2, ih]

theorem get?_set (m : Record) (k : String) (v : Value) (k' : String) :
    (m.set k v).get? k' = if k = k' then some v else m.get? k' := by
  simp only [Record.set, Record.get?, getEntry_setEntry]

theorem get?_empty (k : String) : Record.empty.get? k = none := rfl

/-! ## Normalization -/

/-- A record is built for every event except a task event without entity. -/
theorem normalize_isSome_iff (e : BaseEvent) (category : String) :
    (normalize e category).isSome ↔ ¬ ∃ event name, e = .TaskEvent event ⟨none, name⟩ := by
  cases e with
  | TaskEvent event Info =>
    obtain ⟨entity, name⟩ := Info
    cases entity <;> simp [normalize]
  | other event => simp [normalize]

/-- C2: in the record built for an event, the key `host` is present exactly
when the event has a host reference with a non-empty name, and its value is
then that name; likewise `vm` for the VM reference and `username` for the user
name; none of the three keys is ever present with an empty value.  No record
is built only for a task event without entity reference. -/
theorem normalize_optional_keys (e : BaseEvent) (category : String) :
    match normalize e category with
    | none => ∃ event name, e = .TaskEvent event ⟨none, name⟩
    | some m =>
      (∀ v, m.get? "host" = some v ↔
        ∃ h, e.GetEvent.Host = some h ∧ h.Name ≠ "" ∧ v = .str h.Name) ∧
      (∀ v, m.get? "vm" = some v ↔
        ∃ h, e.GetEvent.Vm = some h ∧ h.Name ≠ "" ∧ v = .str h.Name) ∧
      (∀ v, m.get? "username" = some v ↔
        e.GetEvent.UserName ≠ "" ∧ v = .str e.GetEvent.UserName) ∧
      m.get? "host" ≠ some (.str "") ∧ m.get? "vm" ≠ some (.str "") ∧
      m.get? "username" ≠ some (.str "") := by
  cases e with
  | TaskEvent event Info =>
    obtain ⟨entity, name⟩ := Info
    cases entity with
    | none => exact ⟨event, name, rfl⟩
    | some ent =>
      obtain ⟨t, user, host, vm, msg⟩ := event
      simp only [normalize, BaseEvent.GetEvent]
      rcases host with _ | ⟨hn, hr⟩ <;> rcases vm with _ | ⟨vn, vr⟩ <;>
        by_cases hu : user = "" <;>
        (try by_cases hh : hn = "") <;> (try by_cases hv : vn = "") <;>
        simp [get?_set, get?_empty, *] <;> aesop
  | other event =>
    obtain ⟨t, user, host, vm, msg⟩ := event
    simp only [normalize, BaseEvent.GetEvent]
    rcases host with _ | ⟨hn, hr⟩ <;> rcases vm with _ | ⟨vn, vr⟩ <;>
      by_cases hu : user = "" <;>
      (try by_cases hh : hn = "") <;> (try by_cases hv : vn = "") <;>
      simp [get?_set, get?_empty, *] <;> aesop

/-- C3 (failing input): a task event whose task info has no entity reference
yields no record at all; line 104 dereferences the nil `Entity` and the
program panics, whatever the category lookup returned. -/
theorem normalize_task_without_entity (event : Event) (name : String) (category : String) :
    normalize (.TaskEvent event ⟨none, name⟩) category = none := by
  simp [normalize]

/-- A task event with an entity reference yields a record of type `Task` with
the entity type and the entity name of the task. -/
theorem normalize_task_with_entity (event : Event) (entity : ManagedObjectReference)
    (name : String) (category : String) :
    ∃ m, normalize (.TaskEvent event ⟨some entity, name⟩) category = some m ∧
      m.get? "type" = some (.str "Task") ∧
      m.get? "targetType" = some (.str entity.Type_) ∧
      m.get? "targetName" = some (.str name) := by
  obtain ⟨t, user, host, vm, msg⟩ := event
  refine ⟨_, rfl, ?_⟩
  rcases host with _ | ⟨hn, hr⟩ <;> rcases vm with _ | ⟨vn, vr⟩ <;>
    by_cases hu : user = "" <;>
    (try by_cases hh : hn = "") <;> (try by_cases hv : vn = "") <;>
    simp [get?_set, get?_empty, BaseEvent.GetEvent, *]

/-- An event that is not a task event yields a record of type `Event` without
the keys `targetType` and `targetName`. -/
theorem normalize_other (event : Event) (category : String) :
    ∃ m, normalize (.other event) category = some m ∧
      m.get? "type" = some (.str "Event") ∧
      m.get? "targetType" = none ∧ m.get? "targetName" = none := by
  obtain ⟨t, user, host, vm, msg⟩ := event
  refine ⟨_, rfl, ?_⟩
  rcases host with _ | ⟨hn, hr⟩ <;> rcases vm with _ | ⟨vn, vr⟩ <;>
    by_cases hu : user = "" <;>
    (try by_cases hh : hn = "") <;> (try by_cases hv : vn = "") <;>
    simp [get?_set, get?_empty, BaseEvent.GetEvent, *]

/-- In every record built, the keys `message`, `category` and `time` hold the
trimmed message, the category and the Unix seconds of the creation time. -/
theorem normalize_common_keys (e : BaseEvent) (category : String) (m : Record)
    (h : normalize e category = some m) :
    m.get? "message" = some (.str (TrimSpace e.GetEvent.FullFormattedMessage)) ∧
      m.get? "category" = some (.str category) ∧
      m.get? "time" = some (.int e.GetEvent.CreatedTime.sec) := by
  cases e with
  | TaskEvent event Info =>
    obtain ⟨entity, name⟩ := Info
    cases entity with
    | none => simp [normalize] at h
    | some ent =>
      obtain ⟨t, user, host, vm, msg⟩ := event
      simp only [normalize, BaseEvent.GetEvent, Option.some.injEq] at h
      subst h
      rcases host with _ | ⟨hn, hr⟩ <;> rcases vm with _ | ⟨vn, vr⟩ <;>
        by_cases hu : user = "" <;>
        (try by_cases hh : hn = "") <;> (try by_cases hv : vn = "") <;>
        simp [get?_set, get?_empty, BaseEvent.GetEvent, Time.Unix, *]
  | other event =>
    obtain ⟨t, user, host, vm, msg⟩ := event
    simp only [normalize, BaseEvent.GetEvent, Option.some.injEq] at h
    subst h
    rcases host with _ | ⟨hn, hr⟩ <;> rcases vm with _ | ⟨vn, vr⟩ <;>
      by_cases hu : user = "" <;>
      (try by_cases hh : hn = "") <;> (try by_cases hv : vn = "") <;>
      simp [get?_set, get?_empty, BaseEvent.GetEvent, Time.Unix, *]

/-! ## The poll loop -/

theorem processEvent_of_record (localZone : Location) (item : BaseEvent × LookupResult)
    (p : Proc) (m : Record) (h : normalize item.1 item.2.category = some m) :
    processEvent localZone item p =
      { p with stdout := p.stdout ++ [eventLine localZone item.1 m]
               steps := p.steps ++ [.eventCategory] } := by
  simp [processEvent, h, Proc.print, Proc.log]

/-- Apart from task events without entity, the inner loop writes one line per
event, in the order of the batch, and keeps running. -/
theorem processItems_lines (localZone : Location) (items : List (BaseEvent × LookupResult))
    (p : Proc) (hp : p.status = .running) (hall : ∀ it ∈ items, (lineOf localZone it).isSome) :
    (processItems localZone items p).stdout = p.stdout ++ items.filterMap (lineOf localZone) ∧
      (items.filterMap (lineOf localZone)).length = items.length ∧
      (processItems localZone items p).status = .running ∧
      (processItems localZone items p).stderr = p.stderr := by
  induction items generalizing p with
  | nil => simp [processItems, hp]
  | cons it rest ih =>
    have h1 := hall it (List.mem_cons_self _ _)
    obtain ⟨m, hm⟩ : ∃ m, normalize it.1 it.2.category = some m := by
      cases hn : normalize it.1 it.2.category with
      | none => simp [lineOf, hn] at h1
      | some m => exact ⟨m, rfl⟩
    have hrest : ∀ x ∈ rest, (lineOf localZone x).isSome :=
      fun x hx => hall x (List.mem_cons_of_mem _ hx)
    have hstep := processEvent_of_record localZone it p m hm
    have hl : lineOf localZone it = some (eventLine localZone it.1 m) := by
      simp [lineOf, hm]
    have hrun : (processEvent localZone it p).status = .running := by rw [hstep]; exact hp
    have := ih (processEvent localZone it p) hrun hrest
    simp only [processItems, hrun, List.filterMap_cons, hl, List.length_cons]
    rw [hstep] at this ⊢
    simp only [this, List.append_assoc, List.singleton_append, true_and, and_self]

/-- C1 (failing input): a batch that begins with a task event without entity
reference writes no line at all, neither for that event nor for the events
after it, and the process ends in a panic. -/
theorem pollOnce_task_without_entity (localZone : Location) (event : Event) (name : String)
    (r : LookupResult) (rest : List (BaseEvent × LookupResult)) (p : Proc) :
    pollOnce localZone (.ok ((.TaskEvent event ⟨none, name⟩, r) :: rest)) p =
      { p with steps := p.steps ++ [.readNextEvents 10, .eventCategory]
               status := .panicked } := by
  simp [pollOnce, processItems, processEvent, normalize, Proc.log]

/-- A failed category lookup is handled like a lookup that returned the empty
category: the same line is written and the loop goes on in the same way. -/
theorem processEvent_failed_lookup (localZone : Location) (e : BaseEvent) (err : GoError)
    (p : Proc) :
    processEvent localZone (e, .failed err) p = processEvent localZone (e, .ok "") p := rfl


/-- C5: when a fetch fails in a running process, the outer loop writes the one
line `Error: <message>` to the error stream, leaves with status 1, writes
nothing to standard output, and issues no operation after that fetch, whatever
the later fetches would have returned. -/
theorem pollLoop_fetch_error (localZone : Location) (err : GoError) (rest : List FetchResult)
    (p : Proc) (hp : p.status = .running) :
    pollLoop localZone (.error err :: rest) p =
      { stdout := p.stdout
        stderr := p.stderr ++ ["Error: " ++ err.msg ++ "\n"]
        steps := p.steps ++ [.readNextEvents 10]
        status := .exited 1 } := by
  cases rest <;> simp [pollLoop, hp, pollOnce, exit, Proc.log]

/-- The statement of `pollLoop_fetch_error` at the start state, for a failing
fetch followed by one that would have succeeded. -/
theorem pollLoop_fetch_error_witness :
    Proc.start.status = .running ∧
    pollLoop UTC [.error ⟨"EOF"⟩, .ok []] Proc.start =
      { stdout := []
        stderr := ["Error: EOF\n"]
        steps := [.readNextEvents 10]
        status := .exited 1 } :=
  ⟨rfl, pollLoop_fetch_error UTC ⟨"EOF"⟩ [.ok []] Proc.start rfl⟩

/-- The record built after a failed category lookup is the record of a
successful lookup with the value of `category` replaced by the empty string:
it exists whenever that one does and agrees with it on every other key. -/
theorem normalize_failed_lookup (e : BaseEvent) (err : GoError) (c : String) (m : Record)
    (h : normalize e (LookupResult.ok c).category = some m) :
    ∃ m1, normalize e (LookupResult.failed err).category = some m1 ∧
      m1.get? "category" = some (.str "") ∧
      ∀ k, k ≠ "category" → m1.get? k = m.get? k := by
  cases e with
  | TaskEvent event Info =>
    obtain ⟨entity, name⟩ := Info
    cases entity with
    | none => simp [normalize] at h
    | some ent =>
      obtain ⟨t, user, host, vm, msg⟩ := event
      simp only [normalize, BaseEvent.GetEvent, Option.some.injEq, LookupResult.category] at h
      subst h
      refine ⟨_, rfl, ?_, ?_⟩
      · rcases host with _ | ⟨hn, hr⟩ <;> rcases vm with _ | ⟨vn, vr⟩ <;>
          by_cases hu : user = "" <;>
          (try by_cases hh : hn = "") <;> (try by_cases hv : vn = "") <;>
          simp [get?_set, get?_empty, BaseEvent.GetEvent, LookupResult.category, *]
      · intro k hk
        have hk2 : ¬ "category" = k := fun h => hk h.symm
        rcases host with _ | ⟨hn, hr⟩ <;> rcases vm with _ | ⟨vn, vr⟩ <;>
          by_cases hu : user = "" <;>
          (try by_cases hh : hn = "") <;> (try by_cases hv : vn = "") <;>
          simp [get?_set, get?_empty, BaseEvent.GetEvent, LookupResult.category, *]
  | other event =>
    obtain ⟨t, user, host, vm, msg⟩ := event
    simp only [normalize, BaseEvent.GetEvent, Option.some.injEq, LookupResult.category] at h
    subst h
    refine ⟨_, rfl, ?_, ?_⟩
    · rcases host with _ | ⟨hn, hr⟩ <;> rcases vm with _ | ⟨vn, vr⟩ <;>
        by_cases hu : user = "" <;>
        (try by_cases hh : hn = "") <;> (try by_cases hv : vn = "") <;>
        simp [get?_set, get?_empty, BaseEvent.GetEvent, LookupResult.category, *]
    · intro k hk
      have hk2 : ¬ "category" = k := fun h => hk h.symm
      rcases host with _ | ⟨hn, hr⟩ <;> rcases vm with _ | ⟨vn, vr⟩ <;>
        by_cases hu : user = "" <;>
        (try by_cases hh : hn = "") <;> (try by_cases hv : vn = "") <;>
        simp [get?_set, get?_empty, BaseEvent.GetEvent, LookupResult.category, *]

/-- Replacing the category afterwards gives the record that is built from the
empty category. -/
theorem normalize_set_category (e : BaseEvent) (c : String) (m : Record)
    (h : normalize e c = some m) :
    normalize e "" = some (m.set "category" (.str "")) := by
  cases e with
  | TaskEvent event Info =>
    obtain ⟨entity, name⟩ := Info
    cases entity with
    | none => simp [normalize] at h
    | some ent =>
      obtain ⟨t, user, host, vm, msg⟩ := event
      simp only [normalize, BaseEvent.GetEvent, Option.some.injEq] at h
      subst h
      rcases host with _ | ⟨hn, hr⟩ <;> rcases vm with _ | ⟨vn, vr⟩ <;>
        by_cases hu : user = "" <;>
        (try by_cases hh : hn = "") <;> (try by_cases hv : vn = "") <;>
        simp [normalize, Record.set, setEntry, Record.empty, BaseEvent.GetEvent, *]
  | other event =>
    obtain ⟨t, user, host, vm, msg⟩ := event
    simp only [normalize, BaseEvent.GetEvent, Option.some.injEq] at h
    subst h
    rcases host with _ | ⟨hn, hr⟩ <;> rcases vm with _ | ⟨vn, vr⟩ <;>
      by_cases hu : user = "" <;>
      (try by_cases hh : hn = "") <;> (try by_cases hv : vn = "") <;>
      simp [normalize, Record.set, setEntry, Record.empty, BaseEvent.GetEvent, *]

/-- C4: when the category lookup of an event fails, the event is handled
exactly as after a successful lookup that returned the empty category; and
whenever a successful lookup with category `c` gives the record `m`, the
failed lookup gives the record `m` with the value of `category` replaced by
the empty string and every other key unchanged, the line of that record is
written, the process keeps running, and the inner loop goes on with the
remaining events of the batch. -/
theorem failed_lookup_line_still_emitted (localZone : Location) (e : BaseEvent)
    (err : GoError) (c : String) (m : Record) (rest : List (BaseEvent × LookupResult))
    (p : Proc) (hp : p.status = .running)
    (h : normalize e (LookupResult.ok c).category = some m) :
    normalize e (LookupResult.failed err).category = some (m.set "category" (.str "")) ∧
    (m.set "category" (.str "")).get? "category" = some (.str "") ∧
    (∀ k, k ≠ "category" → (m.set "category" (.str "")).get? k = m.get? k) ∧
    processEvent localZone (e, .failed err) p =
      { p with stdout := p.stdout ++ [eventLine localZone e (m.set "category" (.str ""))]
               steps := p.steps ++ [.eventCategory] } ∧
    (processEvent localZone (e, .failed err) p).status = .running ∧
    processItems localZone ((e, .failed err) :: rest) p =
      processItems localZone rest (processEvent localZone (e, .failed err) p) ∧
    processItems localZone ((e, .failed err) :: rest) p =
      processItems localZone ((e, .ok "") :: rest) p := by
  have h1 : normalize e (LookupResult.failed err).category =
      some (m.set "category" (.str "")) := normalize_set_category e c m h
  have h2 := processEvent_of_record localZone (e, .failed err) p _ h1
  have h3 : (processEvent localZone (e, .failed err) p).status = .running := by
    rw [h2]; exact hp
  refine ⟨h1, by simp [get?_set], ?_, h2, h3, ?_, rfl⟩
  · intro k hk
    have hk2 : ¬ "category" = k := fun h => hk h.symm
    simp [get?_set, hk2]
  · simp only [processItems, h3]

/-- The statement of `failed_lookup_line_still_emitted` for the event of the
scenario, alone in its batch, with a lookup that fails. -/
theorem failed_lookup_line_still_emitted_witness :
    Proc.start.status = .running ∧
    normalize scenarioEvent (LookupResult.ok "info").category = some scenarioRecord ∧
    normalize scenarioEvent (LookupResult.failed ⟨"timeout"⟩).category =
      some (scenarioRecord.set "category" (.str "")) ∧
    processEvent UTC (scenarioEvent, .failed ⟨"timeout"⟩) Proc.start =
      { Proc.start with
        stdout := [eventLine UTC scenarioEvent (scenarioRecord.set "category" (.str ""))]
        steps := [.eventCategory] } ∧
    (processItems UTC [(scenarioEvent, .failed ⟨"timeout"⟩)] Proc.start).stdout =
      ["2024-01-01T00:00:00Z\t\x7b\"category\":\"\",\"host\":\"esx01\",\"message\":\"VM powered on\",\"time\":1704067200,\"type\":\"Event\"\x7d\n"] :=
  ⟨rfl, by decide,
    (failed_lookup_line_still_emitted UTC scenarioEvent ⟨"timeout"⟩ "info" scenarioRecord []
      Proc.start rfl (by decide)).1,
    (failed_lookup_line_still_emitted UTC scenarioEvent ⟨"timeout"⟩ "info" scenarioRecord []
      Proc.start rfl (by decide)).2.2.2.1,
    by decide⟩

/-! ## Standard output only grows -/

theorem processEvent_stdout (localZone : Location) (item : BaseEvent × LookupResult) (p : Proc) :
    ∃ l, (processEvent localZone item p).stdout = p.stdout ++ l := by
  cases h : normalize item.1 item.2.category with
  | none => exact ⟨[], by simp [processEvent, h, Proc.log]⟩
  | some m => exact ⟨[eventLine localZone item.1 m], by simp [processEvent, h, Proc.log, Proc.print]⟩

theorem processItems_stdout (localZone : Location) (items : List (BaseEvent × LookupResult))
    (p : Proc) : ∃ l, (processItems localZone items p).stdout = p.stdout ++ l := by
  induction items generalizing p with
  | nil => exact ⟨[], by simp [processItems]⟩
  | cons it rest ih =>
    obtain ⟨l1, h1⟩ := processEvent_stdout localZone it p
    simp only [processItems]
    split
    · obtain ⟨l2, h2⟩ := ih (processEvent localZone it p)
      exact ⟨l1 ++ l2, by rw [h2, h1, List.append_assoc]⟩
    · exact ⟨l1, h1⟩

theorem pollOnce_stdout (localZone : Location) (r : FetchResult) (p : Proc) :
    ∃ l, (pollOnce localZone r p).stdout = p.stdout ++ l := by
  cases r with
  | error err => exact ⟨[], by simp [pollOnce, exit, Proc.log]⟩
  | ok items =>
    obtain ⟨l, h⟩ := processItems_stdout localZone items (p.log (.readNextEvents 10))
    simp only [pollOnce]
    split
    · exact ⟨l, by simpa [Proc.log] using h⟩
    · exact ⟨l, by simpa [Proc.log] using h⟩

theorem pollLoop_stdout (localZone : Location) (fetches : List FetchResult) (p : Proc) :
    ∃ l, (pollLoop localZone fetches p).stdout = p.stdout ++ l := by
  induction fetches generalizing p with
  | nil => exact ⟨[], by simp [pollLoop]⟩
  | cons r rest ih =>
    simp only [pollLoop]
    split
    · obtain ⟨l1, h1⟩ := pollOnce_stdout localZone r p
      obtain ⟨l2, h2⟩ := ih (pollOnce localZone r p)
      exact ⟨l1 ++ l2, by rw [h2, h1, List.append_assoc]⟩
    · exact ⟨[], by simp⟩

/-- The banner is the first write to standard output in every run. -/
theorem main_stdout_begins_with_banner (vcUrl : String) (insecure : Bool)
    (localZone : Location) (st : Startup) (fetches : List FetchResult) :
    ∃ l, (main vcUrl insecure localZone st fetches).stdout = banner vcUrl insecure :: l := by
  obtain ⟨e1, e2, e3, e4⟩ := st
  cases e1 with
  | some err => exact ⟨[], by simp [main, exit, Proc.log, Proc.print, Proc.start]⟩
  | none =>
  cases e2 with
  | some err => exact ⟨[], by simp [main, exit, Proc.log, Proc.print, Proc.start]⟩
  | none =>
  cases e3 with
  | some err => exact ⟨[], by simp [main, exit, Proc.log, Proc.print, Proc.start]⟩
  | none =>
  cases e4 with
  | some err => exact ⟨[], by simp [main, Proc.log, Proc.print, Proc.start]⟩
  | none =>
    simp only [main]
    obtain ⟨l, h⟩ := pollLoop_stdout localZone fetches
      ((((((Proc.start.print (banner vcUrl insecure)).log .parseURL).log .newClient).log
        .defaultDatacenter).log .createCollector).log (.setPageSize 0) |>.log .reset)
    exact ⟨l, by rw [h]; simp [Proc.log, Proc.print, Proc.start]⟩

/-! ## Startup -/

/-- A failure of one of the three checked startup steps (URL, session,
datacenter) is reported as `Error: <message>` and ends the process with
status 1 before any later step is issued. -/
theorem main_checked_step_fails (vcUrl : String) (insecure : Bool) (localZone : Location)
    (err : GoError) (e2 e3 e4 : Option GoError) (fetches : List FetchResult) :
    main vcUrl insecure localZone ⟨some err, e2, e3, e4⟩ fetches =
      { stdout := [banner vcUrl insecure], stderr := ["Error: " ++ err.msg ++ "\n"]
        steps := [.parseURL], status := .exited 1 } ∧
    main vcUrl insecure localZone ⟨none, some err, e3, e4⟩ fetches =
      { stdout := [banner vcUrl insecure], stderr := ["Error: " ++ err.msg ++ "\n"]
        steps := [.parseURL, .newClient], status := .exited 1 } ∧
    main vcUrl insecure localZone ⟨none, none, some err, e4⟩ fetches =
      { stdout := [banner vcUrl insecure], stderr := ["Error: " ++ err.msg ++ "\n"]
        steps := [.parseURL, .newClient, .defaultDatacenter], status := .exited 1 } := by
  simp [main, exit, Proc.log, Proc.print, Proc.start]

/-- C6 (failing input): when only the creation of the collector fails, nothing
is written to the error stream and the process does not leave with status 1;
the error is never inspected and the process panics on the nil collector. -/
theorem main_createCollector_fails (vcUrl : String) (insecure : Bool) (localZone : Location)
    (err : GoError) (fetches : List FetchResult) :
    main vcUrl insecure localZone ⟨none, none, none, some err⟩ fetches =
      { stdout := [banner vcUrl insecure], stderr := []
        steps := [.parseURL, .newClient, .defaultDatacenter, .createCollector]
        status := .panicked } := by
  simp [main, Proc.log, Proc.print, Proc.start]

/-! ## Configuration and banner -/

/-- C9: `GetEnvBool` returns the default when the variable is unset or empty,
and otherwise whether the value is exactly `1`; with the default `false` of
`VCEL_INSECURE` the result is true exactly for the value `1`, and false for
`true`, `0`, ` 1` and the empty string. -/
theorem GetEnvBool_spec (env : Env) (key : String) (d : Bool) :
    GetEnvBool env key d =
      (match env key with
       | none => d
       | some v => if v = "" then d else decide (v = "1")) ∧
    (GetEnvBool env key false = true ↔ env key = some "1") ∧
    (flagDefaults env).2 = decide (env "VCEL_INSECURE" = some "1") ∧
    GetEnvBool (fun _ => some "true") key false = false ∧
    GetEnvBool (fun _ => some "0") key false = false ∧
    GetEnvBool (fun _ => some " 1") key false = false ∧
    GetEnvBool (fun _ => some "") key false = false ∧
    GetEnvBool (fun _ => none) key false = false ∧
    GetEnvBool (fun _ => some "1") key false = true := by
  have key1 : ∀ k, (GetEnvBool env k false = true ↔ env k = some "1") := by
    intro k
    cases h : env k with
    | none => simp [GetEnvBool, Getenv, h]
    | some v =>
      by_cases hv : v = ""
      · subst hv; simp [GetEnvBool, Getenv, h]
      · simp [GetEnvBool, Getenv, h, hv]
  refine ⟨?_, key1 key, ?_, ?_, ?_, ?_, ?_, ?_, ?_⟩ <;> try (simp [GetEnvBool, Getenv]; done)
  · cases h : env key with
    | none => simp [GetEnvBool, Getenv, h]
    | some v =>
      by_cases hv : v = ""
      · subst hv; simp [GetEnvBool, Getenv, h]
      · simp [GetEnvBool, Getenv, h, hv]
  · have := key1 "VCEL_INSECURE"
    simp only [flagDefaults, envInsecure]
    cases hb : GetEnvBool env "VCEL_INSECURE" false
    · simp only [hb, Bool.false_eq_true, false_iff] at this
      simp [this]
    · simp only [hb, true_iff] at this
      simp [this]

theorem string_append_left_cancel (a b c : String) (h : a ++ b = a ++ c) : b = c := by
  have h1 : (a ++ b).data = (a ++ c).data := by rw [h]
  simp only [String.data_append] at h1
  exact String.ext (List.append_cancel_left h1)

/-- C10 (failing input): the banner renders the insecure flag with the verb
`%s`, so for every URL and flag value the line ends in `%!s(bool=true)` or
`%!s(bool=false)` and differs from the line `url=<url> insecure=<bool>`. -/
theorem banner_renders_bool_with_bad_verb (vcUrl : String) (insecure : Bool) :
    banner vcUrl insecure =
      "url=" ++ vcUrl ++ " insecure=%!s(bool=" ++ toString insecure ++ ")\n" ∧
    banner vcUrl insecure ≠ "url=" ++ vcUrl ++ " insecure=" ++ toString insecure ++ "\n" ∧
    banner "https://vc.example/sdk" true =
      "url=https://vc.example/sdk insecure=%!s(bool=true)\n" := by
  refine ⟨?_, ?_, by decide⟩
  · cases insecure <;> simp [banner, fmtBoolS, String.append_assoc] <;> rfl
  · intro h
    simp only [banner, String.append_assoc] at h
    have h1 := string_append_left_cancel _ _ _ h
    have h2 := string_append_left_cancel _ _ _ h1
    have h3 := string_append_left_cancel _ _ _ h2
    cases insecure <;> revert h3 <;> decide

/-! ## The scenario of the generic event -/

/-- C7 (counterexample): for the generic event of the scenario with category
`info`, the JSON text written is not the text with the keys in the order
`type`, `message`, `category`, `host`, `time`. -/
theorem scenario_json_not_in_assignment_order :
    (normalize scenarioEvent (LookupResult.ok "info").category).map Marshal ≠
      some "\x7b\"type\":\"Event\",\"message\":\"VM powered on\",\"category\":\"info\",\"host\":\"esx01\",\"time\":1704067200\x7d" := by
  decide

/-- C7 (amended): for the generic event of the scenario with category `info`,
the JSON text has the members `category`, `host`, `message`, `time`, `type`
in ascending order of the keys, with the message trimmed and without the keys
`vm` and `username`; the creation time is the instant 2024-01-01T00:00:00Z and
the line written in UTC is that stamp, a tab, the JSON text and a line feed. -/
theorem scenario_json_sorted_keys :
    (normalize scenarioEvent (LookupResult.ok "info").category).map Marshal =
      some "\x7b\"category\":\"info\",\"host\":\"esx01\",\"message\":\"VM powered on\",\"time\":1704067200,\"type\":\"Event\"\x7d" ∧
    (ParseRFC3339 "2024-01-01T00:00:00Z").map Time.Unix =
      some scenarioEvent.GetEvent.CreatedTime.Unix ∧
    (processEvent UTC (scenarioEvent, .ok "info") Proc.start).stdout =
      ["2024-01-01T00:00:00Z\t\x7b\"category\":\"info\",\"host\":\"esx01\",\"message\":\"VM powered on\",\"time\":1704067200,\"type\":\"Event\"\x7d\n"] := by
  decide

/-! ## Time value and time stamp -/

/-- C8 (counterexample): for an event created at the Unix epoch and the local
zone of Monrovia before 1972, the `time` value is 0, the stamp is
`1969-12-31T23:15:30-00:44`, and parsing the stamp gives an instant of Unix
seconds -30: the seconds of the zone offset are not rendered. -/
theorem stamp_drops_offset_seconds :
    (normalize epochEvent "info").bind (fun m => m.get? "time") = some (.int 0) ∧
    (epochEvent.GetEvent.CreatedTime.Local monroviaZone).FormatRFC3339 =
      "1969-12-31T23:15:30-00:44" ∧
    (ParseRFC3339 (epochEvent.GetEvent.CreatedTime.Local monroviaZone).FormatRFC3339).map
      Time.Unix = some (-30) ∧
    (ParseRFC3339 (epochEvent.GetEvent.CreatedTime.Local monroviaZone).FormatRFC3339).map
      Time.Unix ≠ some epochEvent.GetEvent.CreatedTime.Unix ∧
    (lineOf monroviaZone (epochEvent, .ok "info")).map (fun l => l.toList.take 26) =
      some "1969-12-31T23:15:30-00:44\t".toList := by
  decide

/-- C8 (amended): for every event with a record and every local zone, the
`time` value is the Unix seconds of the creation instant, which no choice of
zone changes, and the line is the RFC 3339 rendering of that instant in the
local zone, a tab, the JSON text and a line feed; when the offset of the local
zone at that instant is a whole number of minutes, less than a day in size, and
the local year lies between 0 and 9999, parsing the stamp gives an instant
whose Unix seconds equal the `time` value. -/
theorem time_value_and_stamp (localZone : Location) (e : BaseEvent) (category : String)
    (m : Record) (hrec : normalize e category = some m) :
    m.get? "time" = some (.int e.GetEvent.CreatedTime.Unix) ∧
    (∀ zone, (e.GetEvent.CreatedTime.Local zone).Unix = e.GetEvent.CreatedTime.Unix) ∧
    eventLine localZone e m =
      (e.GetEvent.CreatedTime.Local localZone).FormatRFC3339 ++ "\t" ++ Marshal m ++ "\n" ∧
    (localZone.lookup e.GetEvent.CreatedTime.sec % 60 = 0 →
      -86400 < localZone.lookup e.GetEvent.CreatedTime.sec →
      localZone.lookup e.GetEvent.CreatedTime.sec < 86400 →
      0 ≤ (civilFromDays ((e.GetEvent.CreatedTime.sec +
        localZone.lookup e.GetEvent.CreatedTime.sec) / 86400)).year →
      (civilFromDays ((e.GetEvent.CreatedTime.sec +
        localZone.lookup e.GetEvent.CreatedTime.sec) / 86400)).year ≤ 9999 →
      (ParseRFC3339 (e.GetEvent.CreatedTime.Local localZone).FormatRFC3339).map Time.Unix =
        some e.GetEvent.CreatedTime.Unix) := by
  refine ⟨(normalize_common_keys e category m hrec).2.2, fun _ => rfl, rfl, ?_⟩
  intro hm hlo hhi hy0 hy1
  exact parse_format (e.GetEvent.CreatedTime.Local localZone) hm hlo hhi hy0 hy1

/-- The statement of `time_value_and_stamp` for the event of the scenario in a
zone nine hours east of UTC. -/
theorem time_value_and_stamp_witness :
    (normalize scenarioEvent "info").isSome = true ∧
    tokyoZone.lookup scenarioEvent.GetEvent.CreatedTime.sec % 60 = 0 ∧
    (scenarioEvent.GetEvent.CreatedTime.Local tokyoZone).FormatRFC3339 =
      "2024-01-01T09:00:00+09:00" ∧
    (ParseRFC3339 (scenarioEvent.GetEvent.CreatedTime.Local tokyoZone).FormatRFC3339).map
      Time.Unix = some 1704067200 :=
  ⟨by decide, by decide, by decide,
    (time_value_and_stamp tokyoZone scenarioEvent "info" _ rfl).2.2.2
      (by decide) (by decide) (by decide) (by decide) (by decide)⟩

end EventLogger
